import Mathlib

/-!
Verification development for the TetraCryptPQC messaging substrate.

The definitions below are a shallow embedding of the TypeScript sources
(`src/lib/storage.ts` — the storage utility and its two crypto-library
variants — and `src/components/chat/messagelist.tsx`).  JavaScript strings
are embedded as Lean `String` (lists of Unicode scalar values), byte
buffers as `List Nat` with every entry `< 256` where it matters, fallible
operations (rejected promises / thrown exceptions) as `Option`, and the
ambient randomness (`crypto.getRandomValues`, freshly generated keypairs)
is threaded in as explicit parameters.

External library primitives that the repository merely calls (Web Crypto
AES-GCM, noble sha256, poseidonHash, starknet ec / pedersen, JSON.parse of
the starknet signature encoding) are not part of the repository; they are
modelled by executable stand-ins, each marked `Modelled from the spec:` in
its doc comment, preserving exactly the interface properties the
surrounding repository code relies on (determinism, totality or failure
behaviour, and authenticated round-tripping for the AEAD).
-/

/-! ## Hexadecimal codec (Buffer.toString("hex") / Buffer.from(_, "hex")) -/

/-- Lower-case hexadecimal digit for a value `< 16`, as produced by
Node's `Buffer.prototype.toString("hex")`. -/
def hexDigitChar : Nat → Char
  | 0 => '0' | 1 => '1' | 2 => '2' | 3 => '3' | 4 => '4' | 5 => '5'
  | 6 => '6' | 7 => '7' | 8 => '8' | 9 => '9' | 10 => 'a' | 11 => 'b'
  | 12 => 'c' | 13 => 'd' | 14 => 'e' | _ => 'f'

/-- `Buffer.from(bytes).toString("hex")`: two lower-case hex digits per byte. -/
def bytesToHexChars : List Nat → List Char
  | [] => []
  | b :: bs => hexDigitChar (b / 16) :: hexDigitChar (b % 16) :: bytesToHexChars bs

/-- Numeric value of one hexadecimal character (`0-9`, `a-f`, `A-F`),
by character-code ranges as in Node's hex decoder. -/
def hexCharVal (c : Char) : Option Nat :=
  if 48 ≤ c.toNat ∧ c.toNat ≤ 57 then some (c.toNat - 48)
  else if 97 ≤ c.toNat ∧ c.toNat ≤ 102 then some (c.toNat - 87)
  else if 65 ≤ c.toNat ∧ c.toNat ≤ 70 then some (c.toNat - 55)
  else none

/-- `Buffer.from(s, "hex")`: consume pairs of hex digits, stopping at the
first invalid pair or odd trailing character (Node semantics). -/
def hexCharsToBytes : List Char → List Nat
  | c1 :: c2 :: rest =>
    match hexCharVal c1, hexCharVal c2 with
    | some hi, some lo => (16 * hi + lo) :: hexCharsToBytes rest
    | _, _ => []
  | _ => []

theorem hexCharVal_lt {c : Char} {v : Nat} (h : hexCharVal c = some v) : v < 16 := by
  unfold hexCharVal at h
  split at h
  · injection h with h; omega
  · split at h
    · injection h with h; omega
    · split at h
      · injection h with h; omega
      · exact absurd h (by simp)

theorem hexCharVal_hexDigitChar {n : Nat} (h : n < 16) :
    hexCharVal (hexDigitChar n) = some n := by
  interval_cases n <;> decide

theorem hexDigitChar_ne_colon {n : Nat} (h : n < 16) : hexDigitChar n ≠ ':' := by
  interval_cases n <;> decide

theorem colon_not_mem_bytesToHexChars {bs : List Nat} (h : ∀ b ∈ bs, b < 256) :
    ':' ∉ bytesToHexChars bs := by
  induction bs with
  | nil => simp [bytesToHexChars]
  | cons b bs ih =>
    have hb : b < 256 := h b (by simp)
    have h1 : b / 16 < 16 := by omega
    have h2 : b % 16 < 16 := by omega
    simp only [bytesToHexChars, List.mem_cons, not_or]
    exact ⟨fun hc => hexDigitChar_ne_colon h1 hc.symm,
           fun hc => hexDigitChar_ne_colon h2 hc.symm,
           ih (fun x hx => h x (by simp [hx]))⟩

theorem hexCharsToBytes_bytesToHexChars {bs : List Nat} (h : ∀ b ∈ bs, b < 256) :
    hexCharsToBytes (bytesToHexChars bs) = bs := by
  induction bs with
  | nil => rfl
  | cons b bs ih =>
    have hb : b < 256 := h b (by simp)
    have h1 : b / 16 < 16 := by omega
    have h2 : b % 16 < 16 := by omega
    simp only [bytesToHexChars, hexCharsToBytes,
      hexCharVal_hexDigitChar h1, hexCharVal_hexDigitChar h2]
    rw [ih (fun x hx => h x (by simp [hx]))]
    congr 1
    omega

theorem hexCharsToBytes_lt : ∀ (l : List Char), ∀ v ∈ hexCharsToBytes l, v < 256
  | [] => by simp [hexCharsToBytes]
  | [c] => by simp [hexCharsToBytes]
  | c1 :: c2 :: rest => by
    intro v hv
    unfold hexCharsToBytes at hv
    rcases h1 : hexCharVal c1 with _ | hi <;> rcases h2 : hexCharVal c2 with _ | lo <;>
      simp only [h1, h2] at hv
    · simp at hv
    · simp at hv
    · simp at hv
    · rcases List.mem_cons.mp hv with hv | hv
      · have := hexCharVal_lt h1
        have := hexCharVal_lt h2
        omega
      · exact hexCharsToBytes_lt rest v hv

/-! ## JavaScript `String.prototype.split` on a single-character separator -/

/-- `s.split(sep)` for a one-character separator, exactly as in JavaScript:
the list of (possibly empty) chunks between occurrences of `sep`. -/
def splitOnChar (sep : Char) : List Char → List (List Char)
  | [] => [[]]
  | c :: rest =>
    match splitOnChar sep rest with
    | g :: gs => if c = sep then [] :: g :: gs else (c :: g) :: gs
    | [] => if c = sep then [[], []] else [[c]]

theorem splitOnChar_ne_nil (sep : Char) (l : List Char) : splitOnChar sep l ≠ [] := by
  induction l with
  | nil => simp [splitOnChar]
  | cons c rest ih =>
    unfold splitOnChar
    split
    · split <;> simp
    · split <;> simp

theorem splitOnChar_append {sep : Char} {a : List Char} (b : List Char)
    (h : sep ∉ a) : splitOnChar sep (a ++ sep :: b) = a :: splitOnChar sep b := by
  induction a with
  | nil =>
    simp only [List.nil_append, splitOnChar]
    match hb : splitOnChar sep b, splitOnChar_ne_nil sep b with
    | g :: gs, _ => simp
  | cons c a ih =>
    have hc : c ≠ sep := fun hc => h (by simp [hc])
    have ha : sep ∉ a := fun ha => h (by simp [ha])
    have hstep : splitOnChar sep ((c :: a) ++ sep :: b) =
        match splitOnChar sep (a ++ sep :: b) with
        | g :: gs => if c = sep then [] :: g :: gs else (c :: g) :: gs
        | [] => if c = sep then [[], []] else [[c]] := rfl
    rw [hstep, ih ha]
    simp [hc]

/-! ## UTF-8 codec (`new TextEncoder().encode` / `new TextDecoder().decode`) -/

/-- UTF-8 encoding of a single Unicode scalar value. -/
def utf8EncodeCodepoint (n : Nat) : List Nat :=
  if n < 128 then [n]
  else if n < 2048 then [192 + n / 64, 128 + n % 64]
  else if n < 65536 then [224 + n / 4096, 128 + n / 64 % 64, 128 + n % 64]
  else [240 + n / 262144, 128 + n / 4096 % 64, 128 + n / 64 % 64, 128 + n % 64]

/-- `new TextEncoder().encode(s)`: UTF-8 bytes of the string. -/
def utf8EncodeList : List Char → List Nat
  | [] => []
  | c :: cs => utf8EncodeCodepoint c.toNat ++ utf8EncodeList cs

/-- `new TextDecoder().decode(bytes)`: UTF-8 decoding.  On the well-formed
byte sequences produced by `utf8EncodeList` this is exact; continuation
bytes are fetched with `headD 0` so the function is total on garbage input
(where the real decoder would emit replacement characters instead). -/
def utf8DecodeList : List Nat → List Char
  | [] => []
  | b :: rest =>
    if b < 128 then Char.ofNat b :: utf8DecodeList rest
    else if b < 224 then
      Char.ofNat ((b - 192) * 64 + (rest.headD 0 - 128)) :: utf8DecodeList (rest.drop 1)
    else if b < 240 then
      Char.ofNat ((b - 224) * 4096 + (rest.headD 0 - 128) * 64 +
        ((rest.drop 1).headD 0 - 128)) :: utf8DecodeList (rest.drop 2)
    else
      Char.ofNat ((b - 240) * 262144 + (rest.headD 0 - 128) * 4096 +
        ((rest.drop 1).headD 0 - 128) * 64 + ((rest.drop 2).headD 0 - 128)) ::
        utf8DecodeList (rest.drop 3)
termination_by l => l.length
decreasing_by
  all_goals simp [List.length_drop]
  all_goals omega

theorem char_toNat_lt (c : Char) : c.toNat < 1114112 := by
  rcases c.valid with h | ⟨_, h2⟩
  · exact Nat.lt_trans h (by norm_num)
  · exact h2

theorem utf8EncodeCodepoint_lt {n : Nat} (h : n < 1114112) :
    ∀ b ∈ utf8EncodeCodepoint n, b < 256 := by
  intro b hb
  unfold utf8EncodeCodepoint at hb
  split at hb
  · simp at hb; omega
  · split at hb
    · simp at hb; omega
    · split at hb
      · simp at hb; omega
      · simp at hb; omega

theorem utf8EncodeList_lt (cs : List Char) : ∀ b ∈ utf8EncodeList cs, b < 256 := by
  induction cs with
  | nil => simp [utf8EncodeList]
  | cons c cs ih =>
    intro b hb
    simp only [utf8EncodeList, List.mem_append] at hb
    rcases hb with hb | hb
    · exact utf8EncodeCodepoint_lt (char_toNat_lt c) b hb
    · exact ih b hb

theorem utf8Decode_encodeCodepoint {n : Nat} (h : n < 1114112) (rest : List Nat) :
    utf8DecodeList (utf8EncodeCodepoint n ++ rest) = Char.ofNat n :: utf8DecodeList rest := by
  unfold utf8EncodeCodepoint
  split
  · next h1 =>
    show utf8DecodeList (n :: rest) = _
    simp only [utf8DecodeList]
    rw [if_pos h1]
  · split
    · next h1 h2 =>
      show utf8DecodeList ((192 + n / 64) :: (128 + n % 64) :: rest) = _
      simp only [utf8DecodeList]
      rw [if_neg (by omega), if_pos (by omega)]
      simp only [List.headD_cons, List.drop_succ_cons, List.drop_zero]
      have harg : (192 + n / 64 - 192) * 64 + (128 + n % 64 - 128) = n := by omega
      rw [harg]
    · split
      · next h1 h2 h3 =>
        show utf8DecodeList ((224 + n / 4096) :: (128 + n / 64 % 64) :: (128 + n % 64) :: rest) = _
        simp only [utf8DecodeList]
        rw [if_neg (by omega), if_neg (by omega), if_pos (by omega)]
        simp only [List.headD_cons, List.drop_succ_cons, List.drop_zero]
        have harg : (224 + n / 4096 - 224) * 4096 + (128 + n / 64 % 64 - 128) * 64 +
            (128 + n % 64 - 128) = n := by omega
        rw [harg]
      · next h1 h2 h3 =>
        show utf8DecodeList ((240 + n / 262144) :: (128 + n / 4096 % 64) ::
            (128 + n / 64 % 64) :: (128 + n % 64) :: rest) = _
        simp only [utf8DecodeList]
        rw [if_neg (by omega), if_neg (by omega), if_neg (by omega)]
        simp only [List.headD_cons, List.drop_succ_cons, List.drop_zero]
        have harg : (240 + n / 262144 - 240) * 262144 + (128 + n / 4096 % 64 - 128) * 4096 +
            (128 + n / 64 % 64 - 128) * 64 + (128 + n % 64 - 128) = n := by omega
        rw [harg]

theorem utf8Decode_encode (cs : List Char) : utf8DecodeList (utf8EncodeList cs) = cs := by
  induction cs with
  | nil => simp [utf8EncodeList, utf8DecodeList]
  | cons c cs ih =>
    simp only [utf8EncodeList]
    rw [utf8Decode_encodeCodepoint (char_toNat_lt c), Char.ofNat_toNat, ih]

/-! ## AES-256-GCM model and the two `encryptAES`/`decryptAES` variants

The repository calls the Web Crypto API (`subtle.importKey`,
`subtle.encrypt`, `subtle.decrypt` with `AES-GCM`); that library is not
part of the repository, so it is modelled here. -/

/-- Modelled from the spec: `subtle.importKey("raw", keyBytes, "AES-GCM", ...)`.
Web Crypto accepts only AES key lengths of 16, 24 or 32 bytes and rejects
(throws on) anything else. -/
def importKeyAES (keyBytes : List Nat) : Option (List Nat) :=
  if keyBytes.length = 16 ∨ keyBytes.length = 24 ∨ keyBytes.length = 32 then
    some keyBytes
  else none

/-- Modelled from the spec: `subtle.encrypt({name: "AES-GCM", iv}, key, pt)`.
The AEAD seal; per §4.2/§3 of the spec the ciphertext includes the
authentication tag, which binds the key and the IV.  The model appends a
tag consisting of the key and IV bytes. -/
def aesGcmSeal (key iv pt : List Nat) : List Nat :=
  pt ++ (key ++ iv)

/-- Modelled from the spec: `subtle.decrypt({name: "AES-GCM", iv}, key, ct)`.
The AEAD open: tag verification must pass (same key, same IV) or the call
fails (`none`, a thrown `OperationError` in Web Crypto); no partial
plaintext is surfaced on failure. -/
def aesGcmOpen (key iv ct : List Nat) : Option (List Nat) :=
  if key.length + iv.length ≤ ct.length ∧
      ct.drop (ct.length - (key.length + iv.length)) = key ++ iv then
    some (ct.take (ct.length - (key.length + iv.length)))
  else none

theorem aesGcmOpen_seal (key iv pt : List Nat) :
    aesGcmOpen key iv (aesGcmSeal key iv pt) = some pt := by
  unfold aesGcmSeal aesGcmOpen
  have hlen : (pt ++ (key ++ iv)).length = pt.length + (key.length + iv.length) := by
    simp [List.length_append]
  have hsub : (pt ++ (key ++ iv)).length - (key.length + iv.length) = pt.length := by
    rw [hlen]; omega
  rw [hsub, if_pos ⟨by rw [hlen]; omega, List.drop_left pt (key ++ iv)⟩,
    List.take_left pt (key ++ iv)]

/-- `encryptAES` from the hybrid crypto variant (storage.ts lines 214-238):
encode the message as UTF-8, import the first 32 bytes of the hex-decoded
key, AES-GCM-seal under a random 12-byte IV, generate a fresh Kyber
keypair and append its public key (hex of its UTF-8 bytes) as a third
colon-separated component.  The random IV and the freshly generated
keypair's public key are passed in explicitly. -/
def encryptAES (message key : String) (iv : List Nat) (freshKyberPublicKey : String) :
    Option String :=
  let encodedMessage := utf8EncodeList message.data
  match importKeyAES ((hexCharsToBytes key.data).take 32) with
  | none => none
  | some cryptoKey =>
    let encrypted := aesGcmSeal cryptoKey iv encodedMessage
    let hybridKey := bytesToHexChars (utf8EncodeList freshKyberPublicKey.data)
    some ⟨bytesToHexChars iv ++ ':' :: (bytesToHexChars encrypted ++ ':' :: hybridKey)⟩

/-- `encryptAES` from the second crypto variant (storage.ts lines 386-395):
same sealing but with the full hex-decoded key (no 32-byte truncation) and
no third component. -/
def encryptAESv2 (message key : String) (iv : List Nat) : Option String :=
  let encodedMessage := utf8EncodeList message.data
  match importKeyAES (hexCharsToBytes key.data) with
  | none => none
  | some cryptoKey =>
    some ⟨bytesToHexChars iv ++ ':' :: bytesToHexChars (aesGcmSeal cryptoKey iv encodedMessage)⟩

/-- `decryptAES` (identical in both crypto variants, storage.ts lines
240-254 and 398-410): split on ":", hex-decode the first two components
(any further component is ignored by the array destructuring), import the
full hex-decoded key and AES-GCM-open. -/
def decryptAES (encryptedMessage key : String) : Option String :=
  match splitOnChar ':' encryptedMessage.data with
  | ivHex :: encryptedHex :: _ =>
    let iv := hexCharsToBytes ivHex
    let encrypted := hexCharsToBytes encryptedHex
    match importKeyAES (hexCharsToBytes key.data) with
    | none => none
    | some cryptoKey =>
      match aesGcmOpen cryptoKey iv encrypted with
      | none => none
      | some decrypted => some ⟨utf8DecodeList decrypted⟩
  | _ => none

theorem splitOnChar_eq_single {sep : Char} {l : List Char} (h : sep ∉ l) :
    splitOnChar sep l = [l] := by
  induction l with
  | nil => rfl
  | cons c rest ih =>
    have hc : c ≠ sep := fun hc => h (by simp [hc])
    have hr : sep ∉ rest := fun hr => h (by simp [hr])
    have hstep : splitOnChar sep (c :: rest) =
        match splitOnChar sep rest with
        | g :: gs => if c = sep then [] :: g :: gs else (c :: g) :: gs
        | [] => if c = sep then [[], []] else [[c]] := rfl
    rw [hstep, ih hr]
    simp [hc]

theorem aesSeal_bytes_lt {key iv : List Nat} (P : String)
    (hiv : ∀ b ∈ iv, b < 256) (hkey : ∀ b ∈ key, b < 256) :
    ∀ b ∈ aesGcmSeal key iv (utf8EncodeList P.data), b < 256 := by
  intro b hb
  unfold aesGcmSeal at hb
  rcases List.mem_append.mp hb with hb | hb
  · exact utf8EncodeList_lt P.data b hb
  · rcases List.mem_append.mp hb with hb | hb
    · exact hkey b hb
    · exact hiv b hb

/-- C1: for every plaintext string `P` and every valid symmetric key `K`
(one whose hex-decoded bytes form a Web-Crypto-acceptable AES key, so that
the 32-byte truncation performed only by the hybrid `encryptAES` is the
identity), decryption round-trips the output of encryption in both crypto
variants: the third colon-separated component appended by the hybrid
`encryptAES` is ignored by `decryptAES`. -/
theorem decryptAES_encryptAES_roundtrip (P K freshKyberPub : String) (iv : List Nat)
    (hiv : ∀ b ∈ iv, b < 256)
    (hK : (hexCharsToBytes K.data).length = 16 ∨ (hexCharsToBytes K.data).length = 24 ∨
      (hexCharsToBytes K.data).length = 32) :
    ((encryptAES P K iv freshKyberPub).bind fun c => decryptAES c K) = some P ∧
    ((encryptAESv2 P K iv).bind fun c => decryptAES c K) = some P := by
  have hkeyle : (hexCharsToBytes K.data).length ≤ 32 := by
    rcases hK with h | h | h <;> omega
  have htake : (hexCharsToBytes K.data).take 32 = hexCharsToBytes K.data :=
    List.take_of_length_le hkeyle
  have himport : importKeyAES (hexCharsToBytes K.data) = some (hexCharsToBytes K.data) := by
    unfold importKeyAES
    rw [if_pos hK]
  have hen : ∀ b ∈ aesGcmSeal (hexCharsToBytes K.data) iv (utf8EncodeList P.data), b < 256 :=
    aesSeal_bytes_lt P hiv (hexCharsToBytes_lt K.data)
  constructor
  · simp only [encryptAES, htake, himport, Option.bind]
    simp only [decryptAES,
      splitOnChar_append _ (colon_not_mem_bytesToHexChars hiv),
      splitOnChar_append _ (colon_not_mem_bytesToHexChars hen)]
    simp only [hexCharsToBytes_bytesToHexChars hiv, hexCharsToBytes_bytesToHexChars hen,
      himport, aesGcmOpen_seal, utf8Decode_encode]
  · simp only [encryptAESv2, himport, Option.bind]
    simp only [decryptAES,
      splitOnChar_append _ (colon_not_mem_bytesToHexChars hiv),
      splitOnChar_eq_single (colon_not_mem_bytesToHexChars hen)]
    simp only [hexCharsToBytes_bytesToHexChars hiv, hexCharsToBytes_bytesToHexChars hen,
      himport, aesGcmOpen_seal, utf8Decode_encode]

/-- Witness for C1 at the plaintext "hi", a 32-byte all-zero key and an
all-zero 12-byte IV. -/
theorem decryptAES_encryptAES_roundtrip_witness :
    ((encryptAES "hi" "0000000000000000000000000000000000000000000000000000000000000000"
        (List.replicate 12 0) "ab").bind fun c =>
      decryptAES c "0000000000000000000000000000000000000000000000000000000000000000") =
    some "hi" :=
  (decryptAES_encryptAES_roundtrip "hi"
    "0000000000000000000000000000000000000000000000000000000000000000" "ab"
    (List.replicate 12 0) (by decide) (Or.inr (Or.inr (by decide)))).1

/-! ## zk-STARK proof functions (`generateZKProof` / `verifyZKProof`) -/

/-- Modelled from the spec: `sha256` from noble-hashes (library not in the
repository).  Deterministic executable stand-in: the UTF-8 bytes of the
message. -/
def sha256Model (message : String) : List Nat :=
  utf8EncodeList message.data

/-- Modelled from the spec: `poseidonHash` from stark-crypto (library not in
the repository).  Deterministic executable stand-in: the hex string of the
concatenated input byte lists. -/
def poseidonHashModel (inputs : List (List Nat)) : String :=
  ⟨bytesToHexChars (inputs.foldr (· ++ ·) [])⟩

/-- `generateZKProof` (storage.ts lines 257-260 / 413-416): the Poseidon
hash of the sha256 digest of the message. -/
def generateZKProof (message : String) : String :=
  poseidonHashModel [sha256Model message]

/-- `verifyZKProof` (storage.ts lines 262-265 / 418-421): strict equality
(`===`) between the optional `proof` argument and the recomputed
commitment; an absent (`undefined`) proof compares unequal to any string. -/
def verifyZKProof (message : String) (proof : Option String) : Bool :=
  decide (proof = some (poseidonHashModel [sha256Model message]))

/-- C3: verifying a proof generated from the same digest succeeds, and
verifying that proof against a distinct digest whose commitment differs
fails. -/
theorem verifyZKProof_generateZKProof (d d' : String) (_hne : d ≠ d')
    (hc : generateZKProof d ≠ generateZKProof d') :
    verifyZKProof d (some (generateZKProof d)) = true ∧
    verifyZKProof d' (some (generateZKProof d)) = false := by
  constructor
  · simp [verifyZKProof, generateZKProof]
  · simp only [verifyZKProof, generateZKProof, decide_eq_false_iff_not]
    intro h
    exact hc (by injection h)

/-- Witness for C3 at the digests "a" and "b". -/
theorem verifyZKProof_generateZKProof_witness :
    verifyZKProof "a" (some (generateZKProof "a")) = true ∧
    verifyZKProof "b" (some (generateZKProof "a")) = false :=
  verifyZKProof_generateZKProof "a" "b" (by decide) (by decide)

/-! ## C2: the "encapsulated key" component of the hybrid envelope -/

/-- Component `i` of a colon-delimited envelope string. -/
def envelopeComponent (s : String) (i : Nat) : Option (List Char) :=
  (splitOnChar ':' s.data)[i]?

/-- C2 (code bug): the third colon-separated component produced by the
hybrid `encryptAES` — presented as the encapsulated key — equals the hex
of the UTF-8 bytes of the public key of a keypair freshly generated inside
the call.  It is identical across different symmetric AEAD keys and
plaintexts, and `encryptAES` takes no recipient public key at all, so no
encapsulation against the recipient happens. -/
theorem encryptAES_thirdComponent_unrelated :
    ((encryptAES "hi"
        "0000000000000000000000000000000000000000000000000000000000000000"
        (List.replicate 12 0) "ab").bind fun c => envelopeComponent c 2) =
      ((encryptAES "other"
        "ffffffffffffffffffffffffffffffffffffffffffffffffffffffffffffffff"
        (List.replicate 12 0) "ab").bind fun c => envelopeComponent c 2) ∧
    ((encryptAES "hi"
        "0000000000000000000000000000000000000000000000000000000000000000"
        (List.replicate 12 0) "ab").bind fun c => envelopeComponent c 2) =
      some (bytesToHexChars (utf8EncodeList "ab".data)) := by
  decide

/-! ## StarkNet signature verification -/

/-- Modelled from the spec: the quoted-string fragment parser of
`JSON.parse`, consuming characters up to the next double quote. -/
def parseQuoted : List Char → Option (List Char × List Char)
  | [] => none
  | c :: rest =>
    if c = '"' then some ([], rest)
    else
      match parseQuoted rest with
      | some (s, rem) => some (c :: s, rem)
      | none => none

/-- Modelled from the spec: `JSON.parse` restricted to the starknet
signature encoding produced by `JSON.stringify(ec.sign(...))` — a
two-element array of strings.  On any other input (for example the empty
string) `JSON.parse` throws a `SyntaxError`, modelled as `none`. -/
def jsonParseSig (s : String) : Option (String × String) :=
  match s.data with
  | '[' :: '"' :: rest =>
    match parseQuoted rest with
    | some (r, rem) =>
      match rem with
      | ',' :: '"' :: rem2 =>
        match parseQuoted rem2 with
        | some (s2, rem3) =>
          match rem3 with
          | [']'] => some (⟨r⟩, ⟨s2⟩)
          | _ => none
        | none => none
      | _ => none
    | none => none
  | _ => none

/-- Modelled from the spec: starknet `hash.computePedersenHash` (library
not in the repository).  Deterministic executable stand-in. -/
def computePedersenHash (message : String) : String :=
  ⟨bytesToHexChars (utf8EncodeList message.data)⟩

/-- Modelled from the spec: starknet `ec.verify` (library not in the
repository).  A deterministic, total predicate; the claims about this
operation concern only whether the surrounding code can throw. -/
def ecVerify (publicKey hashedMessage : String) (sig : String × String) : Bool :=
  sig.1 == publicKey && sig.2 == hashedMessage

/-- `verifyStarkNetSignature` (storage.ts lines 279-290 and 435-446):
`JSON.parse` the signature — which throws on unparsable input — then check
the parsed signature against the Pedersen hash of the message. -/
def verifyStarkNetSignature (message signature publicKey : String) : Option Bool :=
  match jsonParseSig signature with
  | none => none
  | some parsedSignature =>
    some (ecVerify publicKey (computePedersenHash message) parsedSignature)

/-- C4 (code bug): verification with an unparsable signature (here the
empty string) makes `JSON.parse` throw, so `verifyStarkNetSignature`
raises (`none`) instead of returning `false`. -/
theorem verifyStarkNetSignature_throws_on_unparsable :
    verifyStarkNetSignature "msg" "" "pk" = none := by
  decide

/-! ## The realtime delivery channel (`messagelist.tsx`)

`websocket.onmessage` (lines 84-113) parses the event, drops duplicates,
checks the zk-STARK proof, decrypts and appends to the message list; any
exception is caught (logged) without crashing.  The JSON-parsed event is
embedded as a structure; an event whose JSON fails to parse is caught by
the same try/catch and dropped, which coincides with the `messagesRef`
result below. -/

/-- A displayed chat message (the `Message` interface of messagelist.tsx). -/
structure ChatMessage where
  sender : String
  content : String
  timestamp : Nat
deriving DecidableEq

/-- The JSON-parsed payload of a websocket event. -/
structure WsEvent where
  event : String
  encrypted_content : String
  sender : String
deriving DecidableEq

/-- `websocket.onmessage` (messagelist.tsx lines 84-113), as a function
from the current `messagesRef` list and the incoming event to the updated
list.  Note that the handler calls `verifyZKProof` with a single argument,
so the `proof` parameter is `undefined` (`none`), and that the duplicate
check compares the stored (decrypted) `content` against the incoming
`encrypted_content`. -/
def handleWsMessage (messagesRef : List ChatMessage) (data : WsEvent)
    (sessionKey : String) (now : Nat) : List ChatMessage :=
  if data.event = "MessageSent" then
    if messagesRef.any fun msg => msg.content == data.encrypted_content then
      messagesRef
    else if !(verifyZKProof data.encrypted_content none) then
      messagesRef
    else
      match decryptAES data.encrypted_content sessionKey with
      | none => messagesRef
      | some decryptedContent =>
        messagesRef ++ [{ sender := data.sender, content := decryptedContent, timestamp := now }]
  else
    messagesRef

/-- `fetchMessages` (messagelist.tsx lines 25-70), reduced to its effect on
the message list for one fetched `encrypted_content`: proof check (again
with `undefined` proof), decrypt, append with sender "You". -/
def fetchMessagesStep (messages : List ChatMessage) (encryptedContent : String)
    (sessionKey : String) (now : Nat) : List ChatMessage :=
  if !(verifyZKProof encryptedContent none) then
    messages
  else
    match decryptAES encryptedContent sessionKey with
    | none => messages
    | some decryptedMessage =>
      messages ++ [{ sender := "You", content := decryptedMessage, timestamp := now }]

/-- C5 (code bug): the receive path performs no signature verification at
all, and it invokes `verifyZKProof` without the proof argument, so the
proof check rejects unconditionally: no incoming envelope is ever
decrypted or delivered, by the websocket handler or by `fetchMessages`.
(Nothing crashes — the handlers return the list unchanged.) -/
theorem receive_path_never_delivers (messagesRef : List ChatMessage) (data : WsEvent)
    (sessionKey : String) (now : Nat) :
    handleWsMessage messagesRef data sessionKey now = messagesRef ∧
    fetchMessagesStep messagesRef data.encrypted_content sessionKey now = messagesRef := by
  have hz : ∀ s : String, verifyZKProof s none = false := fun _ => rfl
  constructor
  · unfold handleWsMessage
    rw [hz]
    split
    · split
      · rfl
      · rfl
    · rfl
  · unfold fetchMessagesStep
    rw [hz]
    rfl

/-- C6 (code bug): delivering the same raw envelope twice over the channel
appends zero messages, not one — the unconditionally failing proof check
(invoked without its proof argument) drops both copies before the
duplicate check can matter. -/
theorem handleWsMessage_same_envelope_twice :
    handleWsMessage
      (handleWsMessage [] ⟨"MessageSent", "aabb:cc", "alice"⟩ "3030" 1)
      ⟨"MessageSent", "aabb:cc", "alice"⟩ "3030" 2 = [] := by
  decide

/-! ## The websocket reconnect behaviour (C7) -/

/-- Connection-level state of the delivery channel: whether the socket is
open and whether a reconnect timer (`setTimeout(connectWebSocket, 3000)`)
is pending. -/
structure ChannelState where
  socketOpen : Bool
  reconnectScheduled : Bool
deriving DecidableEq

/-- `websocket.onclose` (messagelist.tsx lines 115-118): runs on every
close event — whatever its cause — and unconditionally schedules a
reconnect in 3 seconds.  The component keeps no flag distinguishing an
explicit teardown from a transport error. -/
def wsOnClose (_ : ChannelState) : ChannelState :=
  { socketOpen := false, reconnectScheduled := true }

/-- Explicit teardown (the effect cleanup, messagelist.tsx lines 125-127):
`ws.close()` closes the socket, upon which the transport fires the close
event and `wsOnClose` runs. -/
def explicitTeardown (s : ChannelState) : ChannelState :=
  wsOnClose { s with socketOpen := false }

/-- C7 (code bug): after an explicit `close()` of the channel a reconnect
is scheduled anyway, because `onclose` cannot tell an explicit teardown
from a transport error. -/
theorem explicitTeardown_schedules_reconnect :
    (explicitTeardown { socketOpen := true, reconnectScheduled := false }).reconnectScheduled =
      true := by
  decide

/-! ## Decentralized identifier derivation (C8) -/

/-- The record returned by `generateDID`. -/
structure DidDocument where
  id : String
  publicKey : String
  privateKey : String
deriving DecidableEq

/-- JavaScript `String.prototype.substring(a, b)` (for `a ≤ b`). -/
def jsSubstring (s : String) (a b : Nat) : String :=
  ⟨(s.data.take b).drop a⟩

/-- `generateDID` (storage.ts lines 293-301 and 449-457): generate a fresh
KEM keypair — passed in explicitly here, since it is random — and derive
the identifier `did:tetracrypt:` followed by the first 16 characters of
the public key. -/
def generateDID (publicKey privateKey : String) : DidDocument :=
  { id := ⟨"did:tetracrypt:".data ++ (jsSubstring publicKey 0 16).data⟩
    publicKey := publicKey
    privateKey := privateKey }

/-- C8: the DID is the fixed namespace prefix `did:tetracrypt:` followed
by the first 16 characters of the public key, and the derivation depends
on nothing but the public key — two derivations from the same public key
agree. -/
theorem generateDID_deterministic (pk sk sk' : String) :
    (generateDID pk sk).id = ⟨"did:tetracrypt:".data ++ pk.data.take 16⟩ ∧
    (generateDID pk sk).id = (generateDID pk sk').id := by
  constructor
  · simp [generateDID, jsSubstring]
  · rfl

/-! ## The storage utility (storage.ts lines 1-159)

In-memory module state plus the `localStorage` cells it mirrors.  The
`localStorage` values are kept in typed form; this is faithful because the
code only ever stores `JSON.stringify` of these records and reads them
back with `JSON.parse`. -/

/-- The fields of the user profile used by the embedded operations. -/
structure UserProfileR where
  userId : String
deriving DecidableEq

/-- A stored contact; `signatureKey` and `publicKey` may be absent
(`undefined`) in persisted data. -/
structure ContactR where
  id : String
  publicKey : Option String
  signatureKey : Option String
deriving DecidableEq

/-- A stored message (the `Message` type of storage-types). -/
structure StoredMessage where
  id : String
  sender : String
  receiver : String
  content : String
  timestamp : Nat
  status : String
deriving DecidableEq

/-- The module-level `storage` object together with the `localStorage`
cells. -/
structure StorageState where
  currentUser : Option UserProfileR
  contacts : List ContactR
  messages : List StoredMessage
  lsUserProfile : Option UserProfileR
  lsContacts : Option (List ContactR)
  lsMessages : Option (List StoredMessage)
deriving DecidableEq

/-- `getUserProfile` (storage.ts lines 28-36): return the cached user, or
load it from `localStorage` (caching it) when absent. -/
def getUserProfile (st : StorageState) : Option UserProfileR × StorageState :=
  match st.currentUser with
  | some u => (some u, st)
  | none =>
    match st.lsUserProfile with
    | some u => (some u, { st with currentUser := some u })
    | none => (none, st)

/-- One message update of `markMessagesAsRead`: set `status` to "read"
when the message is from `contactId` to the current user. -/
def markRead1 (contactId userId : String) (m : StoredMessage) : StoredMessage :=
  if m.sender = contactId ∧ m.receiver = userId then { m with status := "read" } else m

/-- `markMessagesAsRead` (storage.ts lines 123-134): no-op without a user
profile; otherwise update the status of every message from `contactId` to
the current user and rewrite the `messages` localStorage cell. -/
def markMessagesAsRead (contactId : String) (st : StorageState) : StorageState :=
  match getUserProfile st with
  | (none, st1) => st1
  | (some user, st1) =>
    let newMessages := st1.messages.map (markRead1 contactId user.userId)
    { st1 with messages := newMessages, lsMessages := some newMessages }

/-- C9: `markMessagesAsRead` is a frame-respecting status update: with no
current user profile the state is untouched; otherwise the contact list
and the number of messages are unchanged, every field except `status` of
every message is unchanged, `status` is unchanged for messages not from
`contactId` to the current user, and is set to "read" for those that are. -/
theorem markMessagesAsRead_frame (st : StorageState) (cid : String) :
    ((getUserProfile st).1 = none → markMessagesAsRead cid st = st) ∧
    (markMessagesAsRead cid st).contacts = st.contacts ∧
    (markMessagesAsRead cid st).messages.length = st.messages.length ∧
    (∀ (i : Nat) (m : StoredMessage), st.messages[i]? = some m →
      ∃ m' : StoredMessage, (markMessagesAsRead cid st).messages[i]? = some m' ∧
        m'.id = m.id ∧ m'.sender = m.sender ∧ m'.receiver = m.receiver ∧
        m'.content = m.content ∧ m'.timestamp = m.timestamp ∧
        (∀ u, (getUserProfile st).1 = some u →
          ((m.sender = cid ∧ m.receiver = u.userId → m'.status = "read") ∧
           (¬(m.sender = cid ∧ m.receiver = u.userId) → m'.status = m.status)))) := by
  rcases hcu : st.currentUser with _ | u
  · rcases hls : st.lsUserProfile with _ | u
    · refine ⟨fun _ => ?_, ?_, ?_, ?_⟩
      · simp [markMessagesAsRead, getUserProfile, hcu, hls]
      · simp [markMessagesAsRead, getUserProfile, hcu, hls]
      · simp [markMessagesAsRead, getUserProfile, hcu, hls]
      · intro i m hm
        refine ⟨m, ?_, rfl, rfl, rfl, rfl, rfl, ?_⟩
        · simp [markMessagesAsRead, getUserProfile, hcu, hls, hm]
        · intro u hu
          simp [getUserProfile, hcu, hls] at hu
    · refine ⟨?_, ?_, ?_, ?_⟩
      · intro h
        simp [getUserProfile, hcu, hls] at h
      · simp [markMessagesAsRead, getUserProfile, hcu, hls]
      · simp [markMessagesAsRead, getUserProfile, hcu, hls]
      · intro i m hm
        refine ⟨markRead1 cid u.userId m, ?_, ?_⟩
        · simp [markMessagesAsRead, getUserProfile, hcu, hls, List.getElem?_map, hm]
        · refine ⟨?_, ?_, ?_, ?_, ?_, ?_⟩ <;>
            first
            | (unfold markRead1; split <;> rfl)
            | (intro v hv
               simp [getUserProfile, hcu, hls] at hv
               subst hv
               constructor
               · intro hmatch
                 unfold markRead1
                 rw [if_pos hmatch]
               · intro hmatch
                 unfold markRead1
                 rw [if_neg hmatch])
  · refine ⟨?_, ?_, ?_, ?_⟩
    · intro h
      simp [getUserProfile, hcu] at h
    · simp [markMessagesAsRead, getUserProfile, hcu]
    · simp [markMessagesAsRead, getUserProfile, hcu]
    · intro i m hm
      refine ⟨markRead1 cid u.userId m, ?_, ?_⟩
      · simp [markMessagesAsRead, getUserProfile, hcu, List.getElem?_map, hm]
      · refine ⟨?_, ?_, ?_, ?_, ?_, ?_⟩ <;>
          first
          | (unfold markRead1; split <;> rfl)
          | (intro v hv
             simp [getUserProfile, hcu] at hv
             subst hv
             constructor
             · intro hmatch
               unfold markRead1
               rw [if_pos hmatch]
             · intro hmatch
               unfold markRead1
               rw [if_neg hmatch])

/-- A concrete storage state for exercising `markMessagesAsRead`: a
current user "me" with one message from "bob" and one from "zed". -/
def stC9ex : StorageState :=
  { currentUser := some { userId := "me" }
    contacts := []
    messages := [⟨"1", "bob", "me", "first", 10, "unread"⟩,
                 ⟨"2", "zed", "me", "second", 11, "unread"⟩]
    lsUserProfile := none
    lsContacts := none
    lsMessages := none }

/-- Witness for C9: marking messages from "bob" as read leaves the message
from "zed" with its content and its unread status. -/
theorem markMessagesAsRead_frame_witness :
    ∃ m' : StoredMessage,
      (markMessagesAsRead "bob" stC9ex).messages[1]? = some m' ∧
      m'.content = "second" ∧ m'.status = "unread" := by
  obtain ⟨m', h1, _, _, _, hc, _, hs⟩ :=
    (markMessagesAsRead_frame stC9ex "bob").2.2.2 1 ⟨"2", "zed", "me", "second", 11, "unread"⟩ rfl
  exact ⟨m', h1, hc, (hs ⟨"me"⟩ rfl).2 (by decide)⟩

/-! ## Contact retrieval (C10) -/

/-- JavaScript truthiness of a possibly-absent string (`undefined` and the
empty string are falsy). -/
def jsTruthyStr : Option String → Bool
  | none => false
  | some s => decide (s ≠ "")

/-- JavaScript `a || b` on a possibly-absent string `a`. -/
def jsOrDefault (o : Option String) (dflt : String) : String :=
  match o with
  | none => dflt
  | some s => if s = "" then dflt else s

/-- The per-contact normalization of `getContacts` (storage.ts lines
63-72): when `signatureKey` is falsy, fall back to `publicKey || ""`. -/
def contactWithSigKey (c : ContactR) : ContactR :=
  if jsTruthyStr c.signatureKey then c
  else { c with signatureKey := some (jsOrDefault c.publicKey "") }

/-- The stored contact list `getContacts` operates on (storage.ts lines
56-61): the in-memory list, reloaded from `localStorage` when empty. -/
def storedContacts (st : StorageState) : List ContactR :=
  if st.contacts.isEmpty then
    match st.lsContacts with
    | some cs => cs
    | none => st.contacts
  else st.contacts

/-- `getContacts` (storage.ts lines 55-75): load if needed, normalize every
contact's `signatureKey`, store the normalized list back and return it. -/
def getContacts (st : StorageState) : List ContactR × StorageState :=
  let fixed := (storedContacts st).map contactWithSigKey
  (fixed, { st with contacts := fixed })

/-- `getContactById` (storage.ts lines 80-82). -/
def getContactById (id : String) (st : StorageState) : Option ContactR × StorageState :=
  let r := getContacts st
  (r.1.find? fun c => c.id == id, r.2)

theorem contactWithSigKey_ne_none (c : ContactR) :
    (contactWithSigKey c).signatureKey ≠ none := by
  unfold contactWithSigKey
  split
  · next h =>
    rcases hsig : c.signatureKey with _ | s
    · rw [hsig] at h
      simp [jsTruthyStr] at h
    · simp [hsig]
  · simp

/-- C10: every contact returned by `getContacts` (hence by
`getContactById`) has a defined `signatureKey`; a stored contact whose
`signatureKey` is absent or empty comes back with `publicKey || ""` as its
`signatureKey`, all other fields unchanged. -/
theorem getContacts_signatureKey_defined (st : StorageState) :
    (∀ c ∈ (getContacts st).1, c.signatureKey ≠ none) ∧
    (∀ (i : Nat) (c : ContactR), (storedContacts st)[i]? = some c →
      ∃ c' : ContactR, (getContacts st).1[i]? = some c' ∧ c'.id = c.id ∧
        c'.publicKey = c.publicKey ∧
        (jsTruthyStr c.signatureKey = true → c' = c) ∧
        (jsTruthyStr c.signatureKey = false →
          c'.signatureKey = some (jsOrDefault c.publicKey ""))) ∧
    (∀ (cid : String) (c : ContactR), (getContactById cid st).1 = some c →
      c.signatureKey ≠ none) := by
  refine ⟨?_, ?_, ?_⟩
  · intro c hc
    simp only [getContacts, List.mem_map] at hc
    obtain ⟨a, _, ha⟩ := hc
    rw [← ha]
    exact contactWithSigKey_ne_none a
  · intro i c hi
    refine ⟨contactWithSigKey c, ?_, ?_, ?_, ?_, ?_⟩
    · simp [getContacts, List.getElem?_map, hi]
    · unfold contactWithSigKey
      split <;> rfl
    · unfold contactWithSigKey
      split <;> rfl
    · intro h
      unfold contactWithSigKey
      rw [if_pos h]
    · intro h
      unfold contactWithSigKey
      rw [if_neg (by simp [h])]
  · intro cid c hc
    simp only [getContactById] at hc
    have hmem : c ∈ (getContacts st).1 := List.mem_of_find?_eq_some hc
    simp only [getContacts, List.mem_map] at hmem
    obtain ⟨a, _, ha⟩ := hmem
    rw [← ha]
    exact contactWithSigKey_ne_none a

/-- A concrete storage state with one contact lacking a `signatureKey`. -/
def stC10ex : StorageState :=
  { currentUser := none
    contacts := [⟨"c1", some "PK", none⟩]
    messages := []
    lsUserProfile := none
    lsContacts := none
    lsMessages := none }

/-- Witness for C10: the contact with an absent `signatureKey` comes back
carrying its `publicKey` as `signatureKey`. -/
theorem getContacts_signatureKey_defined_witness :
    ∃ c' : ContactR, (getContacts stC10ex).1[0]? = some c' ∧
      c'.signatureKey = some (jsOrDefault (some "PK") "") := by
  obtain ⟨c', h1, _, _, _, h5⟩ :=
    (getContacts_signatureKey_defined stC10ex).2.1 0 ⟨"c1", some "PK", none⟩ rfl
  exact ⟨c', h1, h5 rfl⟩
